import Mathlib

/-!
Verification of the PDF manipulation core of the pdfxpert file converter
(`utils.py` and the `/split` route of `app.py`).

Embedding conventions:
* a Python string is a `List Char` (`PyStr`);
* a PDF document is a `List α` of abstract page objects, in document order;
* Python code that can raise an exception is an `Except` value: `.error e`
  models the exception propagating, `.ok v` models normal completion;
* the subprocess call and the filesystem of `convert_office_to_pdf` are
  passed in as explicit parameters (process result, file-existence oracle);
* the random uuid token of `random_filename` is passed in as a parameter.
-/

/-- A Python string, embedded as its list of characters. -/
abbrev PyStr := List Char

/-- `str.strip()`: remove leading and trailing whitespace. -/
def pyStrip (s : PyStr) : PyStr :=
  ((s.dropWhile Char.isWhitespace).reverse.dropWhile Char.isWhitespace).reverse

/-- `str.split(sep)` for a one-character separator: cut at every occurrence
of `sep`, keeping empty chunks; splitting the empty string gives `[""]`. -/
def pySplit (sep : Char) : PyStr → List PyStr
  | [] => [[]]
  | c :: cs =>
    match pySplit sep cs with
    | [] => [[c]]
    | t :: ts => if c = sep then [] :: t :: ts else (c :: t) :: ts

/-- Numeric value of a string of decimal digits, as Python's `int()` reads
it: `none` unless the string is nonempty and all characters are decimal
digits.  (Python's `int()` additionally allows underscores between digits;
no input relevant here contains one.) -/
def digitsVal? (ds : PyStr) : Option Nat :=
  if ds = [] then none
  else if ds.all Char.isDigit then
    some (ds.foldl (fun a c => a * 10 + (c.toNat - 48)) 0)
  else none

/-- Python `int(s)` on a string: tolerates surrounding whitespace and one
leading sign, then requires a nonempty run of decimal digits; `none` models
the `ValueError` raised on anything else. -/
def pyInt? (s : PyStr) : Option Int :=
  match pyStrip s with
  | [] => none
  | c :: cs =>
    if c = '-' then
      match digitsVal? cs with
      | some n => some (-(n : Int))
      | none => none
    else if c = '+' then
      match digitsVal? cs with
      | some n => some ((n : Int))
      | none => none
    else
      match digitsVal? (c :: cs) with
      | some n => some ((n : Int))
      | none => none

/-- `list(range(a, b + 1))`: the integers from `a` to `b` inclusive, empty
when `a > b`. -/
def pyRangeIncl (a b : Int) : List Int :=
  (List.range (b + 1 - a).toNat).map fun i => a + i

/-- `utils.split_pdf`: the source loop `for p in pages: idx = p - 1;
if idx < 0 or idx >= len(reader.pages): raise IndexError(...);
writer.add_page(reader.pages[idx])`, followed by the write to `out_path`.
`.error` models the `IndexError` raised inside the loop — before the output
file at `out_path` is ever opened; `.ok out` models the output file being
written with exactly the page list `out`. -/
def split_pdf (doc : List α) : List Int → Except String (List α)
  | [] => .ok []
  | p :: ps =>
    if h : p - 1 < 0 ∨ (doc.length : Int) ≤ p - 1 then
      .error "Page index out of range"
    else
      match split_pdf doc ps with
      | .error e => .error e
      | .ok rest => .ok (doc.get ⟨(p - 1).toNat, by omega⟩ :: rest)

/-- `utils.merge_pdfs`: starting from an empty writer, for each input
document in the given order append all of its pages in order; the result is
the page list written to `out_path`. -/
def merge_pdfs (docs : List (List α)) : List α :=
  docs.foldl (fun acc d => acc ++ d) []

-- ---------------------------------------------------------------------
-- Helper lemmas about split_pdf and merge_pdfs
-- ---------------------------------------------------------------------

theorem split_pdf_ok_of_valid (doc : List α) (d : α) :
    ∀ pages : List Int, (∀ p ∈ pages, 1 ≤ p ∧ p ≤ (doc.length : Int)) →
      split_pdf doc pages = .ok (pages.map fun p => doc.getD (p - 1).toNat d)
  | [], _ => rfl
  | p :: ps, h => by
    have hp := h p (List.mem_cons_self p ps)
    have hrest := split_pdf_ok_of_valid doc d ps
      (fun q hq => h q (List.mem_cons_of_mem p hq))
    have hcond : ¬(p - 1 < 0 ∨ (doc.length : Int) ≤ p - 1) := by omega
    have hlt : (p - 1).toNat < doc.length := by omega
    simp only [split_pdf, hcond, dite_false, hrest, List.map_cons]
    rw [List.getD_eq_getElem doc d hlt]
    simp [List.get_eq_getElem]

theorem split_pdf_error_of_bad (doc : List α) :
    ∀ pages : List Int, (∃ p ∈ pages, p < 1 ∨ (doc.length : Int) < p) →
      split_pdf doc pages = .error "Page index out of range"
  | [], h => by simp at h
  | p :: ps, h => by
    by_cases hp : p - 1 < 0 ∨ (doc.length : Int) ≤ p - 1
    · simp only [split_pdf, hp, dite_true]
    · have : ∃ q ∈ ps, q < 1 ∨ (doc.length : Int) < q := by
        rcases h with ⟨q, hq, hbad⟩
        rcases List.mem_cons.mp hq with rfl | hq
        · omega
        · exact ⟨q, hq, hbad⟩
      have hrest := split_pdf_error_of_bad doc ps this
      simp only [split_pdf, hp, dite_false, hrest]

theorem merge_pdfs_eq_join (docs : List (List α)) :
    merge_pdfs docs = docs.flatten := by
  have aux : ∀ (l : List (List α)) (acc : List α),
      l.foldl (fun acc d => acc ++ d) acc = acc ++ l.flatten := by
    intro l
    induction l with
    | nil => intro acc; simp [List.flatten]
    | cons x xs ih => intro acc; simp [List.foldl_cons, ih, List.flatten]
  simpa using aux docs []

-- ---------------------------------------------------------------------
-- C1, C2, C3
-- ---------------------------------------------------------------------

/-- C1: for every source PDF and every list of 1-based page numbers all
within range, `split_pdf` succeeds (the output file is written), the output
page count equals the length of the list, and the N-th output page is the
source page named by the N-th list entry, in the caller's order (duplicates
and arbitrary order preserved, no sorting). -/
theorem split_pdf_valid_pages {α : Type} (doc : List α) (pages : List Int) (d : α)
    (h : ∀ p ∈ pages, 1 ≤ p ∧ p ≤ (doc.length : Int)) :
    ∃ out, split_pdf doc pages = .ok out ∧
      out.length = pages.length ∧
      ∀ i : Fin pages.length,
        out.getD i.val d = doc.getD ((pages.get i) - 1).toNat d := by
  refine ⟨pages.map fun p => doc.getD (p - 1).toNat d,
    split_pdf_ok_of_valid doc d pages h, by simp, ?_⟩
  intro i
  have hi : i.val < (pages.map fun p => doc.getD (p - 1).toNat d).length := by
    simp
  rw [List.getD_eq_getElem _ d hi]
  simp [List.getElem_map]

/-- Witness for C1: the spec's own example, pages `[3, 1, 2]` of a 5-page
source, yields a 3-page output ordered `[page 3, page 1, page 2]`. -/
theorem split_pdf_valid_pages_witness :
    (∀ p ∈ ([3, 1, 2] : List Int), 1 ≤ p ∧ p ≤ (([10, 20, 30, 40, 50] : List Nat).length : Int)) ∧
    ∃ out, split_pdf ([10, 20, 30, 40, 50] : List Nat) [3, 1, 2] = .ok out ∧
      out.length = ([3, 1, 2] : List Int).length ∧
      ∀ i : Fin ([3, 1, 2] : List Int).length,
        out.getD i.val 0 = ([10, 20, 30, 40, 50] : List Nat).getD ((([3, 1, 2] : List Int).get i) - 1).toNat 0 :=
  ⟨by decide, split_pdf_valid_pages [10, 20, 30, 40, 50] [3, 1, 2] 0 (by decide)⟩

/-- C2: merging k documents with page counts p1..pk yields a document of
exactly p1+...+pk pages that is the concatenation of all pages of document
1 in original order, then document 2, and so on — no page skipped or
reordered. -/
theorem merge_pdfs_spec {α : Type} (docs : List (List α)) :
    merge_pdfs docs = docs.flatten ∧
    (merge_pdfs docs).length = (docs.map List.length).sum := by
  refine ⟨merge_pdfs_eq_join docs, ?_⟩
  rw [merge_pdfs_eq_join docs]
  exact List.length_flatten docs

/-- C3: whenever the requested page list contains a page number below 1 or
above the source page count, `split_pdf` raises the out-of-range
`IndexError`; since the error is raised inside the page loop, the output
path has not yet been opened, so no output file is produced. -/
theorem split_pdf_out_of_range {α : Type} (doc : List α) (pages : List Int)
    (h : ∃ p ∈ pages, p < 1 ∨ (doc.length : Int) < p) :
    split_pdf doc pages = .error "Page index out of range" :=
  split_pdf_error_of_bad doc pages h

/-- Witness for C3: requesting page 3 (and page 0) of a 2-page document
raises the out-of-range error. -/
theorem split_pdf_out_of_range_witness :
    (∃ p ∈ ([3, 0] : List Int), p < 1 ∨ ((([7, 8] : List Nat).length : Int) < p)) ∧
    split_pdf ([7, 8] : List Nat) [3, 0] = .error "Page index out of range" :=
  ⟨by decide, split_pdf_out_of_range [7, 8] [3, 0] (by decide)⟩

-- ---------------------------------------------------------------------
-- The /split route of app.py
-- ---------------------------------------------------------------------

/-- One iteration of the pages-parsing loop of the `/split` route:
`part = part.strip(); if "-" in part: start, end = map(int, part.split("-"));
page_list.extend(range(start, end + 1)); else: page_list.append(int(part))`.
`.error` models the uncaught `ValueError` raised by `int()` or by unpacking
a split with other than two pieces. -/
def parsePart (rawPart : PyStr) : Except String (List Int) :=
  if '-' ∈ pyStrip rawPart then
    match (pySplit '-' (pyStrip rawPart)).map pyInt? with
    | [some a, some b] => .ok (pyRangeIncl a b)
    | _ => .error "ValueError"
  else
    match pyInt? (pyStrip rawPart) with
    | some n => .ok [n]
    | none => .error "ValueError"

/-- The pages-parsing loop over the comma-separated chunks, accumulating
`page_list` in order; the first raised `ValueError` aborts the request. -/
def parseParts : List PyStr → Except String (List Int)
  | [] => .ok []
  | part :: rest =>
    match parsePart part with
    | .error e => .error e
    | .ok xs =>
      match parseParts rest with
      | .error e => .error e
      | .ok ys => .ok (xs ++ ys)

/-- Parsing of the `pages` form field in the `/split` route:
`for part in pages.split(","): ...`. -/
def parsePages (pages : PyStr) : Except String (List Int) :=
  parseParts (pySplit ',' pages)

/-- Possible outcomes of a POST to the `/split` route: `redirect` is the
flash-message-and-redirect path (an HTTP 200 re-render for the user),
`download` is `send_file` of the written output document, and
`serverError` is an exception propagating out of the handler uncaught
(an HTTP 500). -/
inductive HttpOutcome (α : Type) where
  | redirect (msg : String)
  | download (doc : List α)
  | serverError (msg : String)
deriving DecidableEq

/-- Whether an outcome is the flash-and-redirect path. -/
def HttpOutcome.isRedirect {α : Type} : HttpOutcome α → Bool
  | .redirect _ => true
  | _ => false

/-- The POST branch of the `/split` view function of `app.py`.  `pdf` is
`request.files.get("file")` (already read as its page list; `none` covers
both an absent and a falsy file field), `pages` is
`request.form.get("pages")` (`none` when absent; the empty string is falsy
too).  After the missing-input check the route parses `pages` and calls
`split_pdf`; neither call is wrapped in any try/except, so an exception in
either becomes a `serverError`. -/
def split {α : Type} (pdf : Option (List α)) (pages : Option PyStr) : HttpOutcome α :=
  match pdf, pages with
  | none, _ => .redirect "Upload PDF and enter pages!"
  | some _, none => .redirect "Upload PDF and enter pages!"
  | some _, some [] => .redirect "Upload PDF and enter pages!"
  | some doc, some (c :: s) =>
    match parsePages (c :: s) with
    | .error e => .serverError e
    | .ok page_list =>
      match split_pdf doc page_list with
      | .error e => .serverError e
      | .ok out => .download out

-- ---------------------------------------------------------------------
-- Decimal numerals (spec-side rendering, used to state C5 and C9)
-- ---------------------------------------------------------------------

/-- The character of one decimal digit. -/
def digitChar : Nat → Char
  | 0 => '0' | 1 => '1' | 2 => '2' | 3 => '3' | 4 => '4'
  | 5 => '5' | 6 => '6' | 7 => '7' | 8 => '8' | _ => '9'

/-- Decimal digits of `n`, least significant first; `fuel` bounds the
recursion so that the definition is structural. -/
def natDigitsRevFuel : Nat → Nat → List Char
  | 0, _ => []
  | fuel + 1, n =>
    if n = 0 then [] else digitChar (n % 10) :: natDigitsRevFuel fuel (n / 10)

/-- The usual decimal numeral of `n`. -/
def natToDigits (n : Nat) : PyStr :=
  if n = 0 then ['0'] else (natDigitsRevFuel n n).reverse

theorem digitChar_facts (d : Nat) (hd : d < 10) :
    (digitChar d).isDigit = true ∧ (digitChar d).toNat - 48 = d ∧
    digitChar d ≠ '-' ∧ digitChar d ≠ '+' ∧ digitChar d ≠ ',' ∧
    (digitChar d).isWhitespace = false := by
  interval_cases d <;> exact (by decide)

theorem dropWhile_eq_self_of_forall {p : Char → Bool} :
    ∀ s : PyStr, (∀ c ∈ s, p c = false) → s.dropWhile p = s
  | [], _ => rfl
  | c :: cs, h => by
    have hc := h c (List.mem_cons_self c cs)
    simp [List.dropWhile_cons, hc]

theorem pyStrip_eq_self (s : PyStr) (h : ∀ c ∈ s, c.isWhitespace = false) :
    pyStrip s = s := by
  unfold pyStrip
  rw [dropWhile_eq_self_of_forall s h]
  rw [dropWhile_eq_self_of_forall s.reverse
    (fun c hc => h c (List.mem_reverse.mp hc))]
  simp

theorem pySplit_ne_nil (sep : Char) : ∀ s : PyStr, pySplit sep s ≠ []
  | [] => by simp [pySplit]
  | c :: cs => by
    unfold pySplit
    cases hs : pySplit sep cs with
    | nil => exact absurd hs (pySplit_ne_nil sep cs)
    | cons t ts => by_cases hc : c = sep <;> simp [hc]

theorem pySplit_cons (sep c : Char) (cs : PyStr) :
    pySplit sep (c :: cs) =
      if c = sep then [] :: pySplit sep cs
      else (c :: (pySplit sep cs).headD []) :: (pySplit sep cs).tail := by
  cases hs : pySplit sep cs with
  | nil => exact absurd hs (pySplit_ne_nil sep cs)
  | cons t ts => by_cases hc : c = sep <;> simp [pySplit, hs, hc]

theorem pySplit_append_sep (sep : Char) :
    ∀ s₁ s₂ : PyStr,
      pySplit sep (s₁ ++ sep :: s₂) = pySplit sep s₁ ++ pySplit sep s₂
  | [], s₂ => by
    rw [List.nil_append, pySplit_cons]
    simp [pySplit]
  | c :: s₁, s₂ => by
    have ih := pySplit_append_sep sep s₁ s₂
    cases h1 : pySplit sep s₁ with
    | nil => exact absurd h1 (pySplit_ne_nil sep s₁)
    | cons t ts =>
      rw [List.cons_append, pySplit_cons, ih, h1, pySplit_cons sep c s₁, h1]
      by_cases hc : c = sep <;> simp [hc]

theorem pySplit_no_sep (sep : Char) :
    ∀ s : PyStr, sep ∉ s → pySplit sep s = [s]
  | [], _ => rfl
  | c :: cs, h => by
    have hc : ¬(c = sep) := fun hcs => h (hcs ▸ List.mem_cons_self c cs)
    have ih := pySplit_no_sep sep cs (fun hm => h (List.mem_cons_of_mem c hm))
    unfold pySplit
    rw [ih]
    simp [hc]

/-- Join a list of strings with a one-character separator (how a user
writes a comma-separated pages string). -/
def joinWith (sep : Char) : List PyStr → PyStr
  | [] => []
  | [x] => x
  | x :: y :: rest => x ++ sep :: joinWith sep (y :: rest)

theorem pySplit_joinWith (sep : Char) :
    ∀ xss : List PyStr, xss ≠ [] → (∀ s ∈ xss, sep ∉ s) →
      pySplit sep (joinWith sep xss) = xss
  | [], h, _ => absurd rfl h
  | [x], _, h => by
    show pySplit sep x = [x]
    exact pySplit_no_sep sep x (h x (List.mem_cons_self x []))
  | x :: y :: rest, _, h => by
    have ih := pySplit_joinWith sep (y :: rest) (List.cons_ne_nil y rest)
      (fun s hs => h s (List.mem_cons_of_mem x hs))
    show pySplit sep (x ++ sep :: joinWith sep (y :: rest)) = x :: y :: rest
    rw [pySplit_append_sep, ih,
      pySplit_no_sep sep x (h x (List.mem_cons_self x (y :: rest)))]
    rfl

theorem natDigitsRevFuel_spec :
    ∀ fuel n : Nat, n ≤ fuel →
      (∀ c ∈ natDigitsRevFuel fuel n, ∃ d, d < 10 ∧ c = digitChar d) ∧
      ∀ acc : Nat,
        (natDigitsRevFuel fuel n).reverse.foldl
            (fun a c => a * 10 + (c.toNat - 48)) acc
          = acc * 10 ^ (natDigitsRevFuel fuel n).length + n
  | 0, n, hn => by
    have h0 : n = 0 := Nat.le_zero.mp hn
    subst h0
    exact ⟨by simp [natDigitsRevFuel], fun acc => by simp [natDigitsRevFuel]⟩
  | fuel + 1, n, hn => by
    by_cases h0 : n = 0
    · subst h0
      exact ⟨by simp [natDigitsRevFuel], fun acc => by simp [natDigitsRevFuel]⟩
    · have hdiv : n / 10 ≤ fuel := by
        have := Nat.div_lt_self (Nat.pos_of_ne_zero h0) (by norm_num : 1 < 10)
        omega
      obtain ⟨ihmem, ihval⟩ := natDigitsRevFuel_spec fuel (n / 10) hdiv
      have hcons : natDigitsRevFuel (fuel + 1) n
          = digitChar (n % 10) :: natDigitsRevFuel fuel (n / 10) := by
        simp [natDigitsRevFuel, h0]
      constructor
      · intro c hc
        rw [hcons] at hc
        rcases List.mem_cons.mp hc with rfl | hc
        · exact ⟨n % 10, Nat.mod_lt n (by norm_num), rfl⟩
        · exact ihmem c hc
      · intro acc
        rw [hcons, List.reverse_cons, List.foldl_append]
        have hmod := (digitChar_facts (n % 10) (Nat.mod_lt n (by norm_num))).2.1
        simp only [List.foldl_cons, List.foldl_nil, ihval acc, List.length_cons]
        rw [hmod]
        have hexp : (acc * 10 ^ (natDigitsRevFuel fuel (n / 10)).length + n / 10) * 10 + n % 10
            = acc * (10 ^ (natDigitsRevFuel fuel (n / 10)).length * 10)
              + (10 * (n / 10) + n % 10) := by ring
        rw [hexp, Nat.div_add_mod, ← pow_succ]

theorem natToDigits_mem (n : Nat) :
    ∀ c ∈ natToDigits n, ∃ d, d < 10 ∧ c = digitChar d := by
  intro c hc
  unfold natToDigits at hc
  by_cases h0 : n = 0
  · simp only [h0, if_true] at hc
    refine ⟨0, by norm_num, ?_⟩
    rcases List.mem_singleton.mp hc with rfl
    rfl
  · simp only [h0, if_false] at hc
    exact (natDigitsRevFuel_spec n n le_rfl).1 c (List.mem_reverse.mp hc)

theorem natToDigits_ne_nil (n : Nat) : natToDigits n ≠ [] := by
  unfold natToDigits
  by_cases h0 : n = 0
  · simp [h0]
  · obtain ⟨m, rfl⟩ : ∃ m, n = m + 1 := ⟨n - 1, by omega⟩
    simp [natDigitsRevFuel]

theorem digitsVal?_natToDigits (n : Nat) : digitsVal? (natToDigits n) = some n := by
  by_cases h0 : n = 0
  · subst h0; decide
  · unfold digitsVal?
    rw [if_neg (natToDigits_ne_nil n)]
    have hall : (natToDigits n).all Char.isDigit = true := by
      rw [List.all_eq_true]
      intro c hc
      obtain ⟨d, hd, hcd⟩ := natToDigits_mem n c hc
      exact hcd ▸ (digitChar_facts d hd).1
    rw [if_pos hall]
    congr 1
    unfold natToDigits
    rw [if_neg h0]
    have hval := (natDigitsRevFuel_spec n n le_rfl).2 0
    simpa using hval

theorem pyInt?_natToDigits (n : Nat) : pyInt? (natToDigits n) = some (n : Int) := by
  have hstrip : pyStrip (natToDigits n) = natToDigits n := by
    apply pyStrip_eq_self
    intro c hc
    obtain ⟨d, hd, hcd⟩ := natToDigits_mem n c hc
    exact hcd ▸ (digitChar_facts d hd).2.2.2.2.2
  unfold pyInt?
  rw [hstrip]
  cases hds : natToDigits n with
  | nil => exact absurd hds (natToDigits_ne_nil n)
  | cons c cs =>
    obtain ⟨d, hd, hcd⟩ := natToDigits_mem n c (hds ▸ List.mem_cons_self c cs)
    subst hcd
    show (if digitChar d = '-' then
        match digitsVal? cs with
        | some n => some (-(n : Int))
        | none => none
      else if digitChar d = '+' then
        match digitsVal? cs with
        | some n => some ((n : Int))
        | none => none
      else
        match digitsVal? (digitChar d :: cs) with
        | some n => some ((n : Int))
        | none => none) = some (n : Int)
    rw [if_neg (digitChar_facts d hd).2.2.1, if_neg (digitChar_facts d hd).2.2.2.1]
    rw [← hds, digitsVal?_natToDigits]

theorem natToDigits_no_hyphen (n : Nat) : '-' ∉ natToDigits n := by
  intro h
  obtain ⟨d, hd, hcd⟩ := natToDigits_mem n '-' h
  exact (digitChar_facts d hd).2.2.1 hcd.symm

theorem natToDigits_no_comma (n : Nat) : ',' ∉ natToDigits n := by
  intro h
  obtain ⟨d, hd, hcd⟩ := natToDigits_mem n ',' h
  exact (digitChar_facts d hd).2.2.2.2.1 hcd.symm

theorem parsePart_single (n : Nat) :
    parsePart (natToDigits n) = .ok [(n : Int)] := by
  have hstrip : pyStrip (natToDigits n) = natToDigits n := by
    apply pyStrip_eq_self
    intro c hc
    obtain ⟨d, hd, hcd⟩ := natToDigits_mem n c hc
    exact hcd ▸ (digitChar_facts d hd).2.2.2.2.2
  unfold parsePart
  rw [hstrip, if_neg (natToDigits_no_hyphen n), pyInt?_natToDigits]

theorem parsePart_range (a b : Nat) :
    parsePart (natToDigits a ++ '-' :: natToDigits b)
      = .ok (pyRangeIncl (a : Int) (b : Int)) := by
  have hstrip : pyStrip (natToDigits a ++ '-' :: natToDigits b)
      = natToDigits a ++ '-' :: natToDigits b := by
    apply pyStrip_eq_self
    intro c hc
    rcases List.mem_append.mp hc with h | h
    · obtain ⟨d, hd, hcd⟩ := natToDigits_mem a c h
      exact hcd ▸ (digitChar_facts d hd).2.2.2.2.2
    · rcases List.mem_cons.mp h with rfl | h
      · decide
      · obtain ⟨d, hd, hcd⟩ := natToDigits_mem b c h
        exact hcd ▸ (digitChar_facts d hd).2.2.2.2.2
  have hmem : '-' ∈ natToDigits a ++ '-' :: natToDigits b :=
    List.mem_append.mpr (Or.inr (List.mem_cons_self _ _))
  unfold parsePart
  rw [hstrip, if_pos hmem, pySplit_append_sep '-' (natToDigits a) (natToDigits b),
    pySplit_no_sep '-' (natToDigits a) (natToDigits_no_hyphen a),
    pySplit_no_sep '-' (natToDigits b) (natToDigits_no_hyphen b)]
  simp [pyInt?_natToDigits]

/-- A well-formed token of the `pages` form field: either a single page
number or an inclusive range written `a-b`. -/
inductive PageToken where
  | single (n : Nat)
  | range (a b : Nat)

/-- The text of one token. -/
def renderToken : PageToken → PyStr
  | .single n => natToDigits n
  | .range a b => natToDigits a ++ '-' :: natToDigits b

/-- A comma-separated pages string built from the given tokens. -/
def renderPages (ts : List PageToken) : PyStr :=
  joinWith ',' (ts.map renderToken)

/-- The page numbers one token contributes: a single number contributes
itself, a range `a-b` contributes `a, a+1, ..., b` inclusive (nothing when
`a > b`). -/
def tokenExpansion : PageToken → List Int
  | .single n => [(n : Int)]
  | .range a b => pyRangeIncl (a : Int) (b : Int)

theorem parsePart_renderToken (t : PageToken) :
    parsePart (renderToken t) = .ok (tokenExpansion t) := by
  cases t with
  | single n => exact parsePart_single n
  | range a b => exact parsePart_range a b

theorem renderToken_no_comma (t : PageToken) : ',' ∉ renderToken t := by
  cases t with
  | single n => exact natToDigits_no_comma n
  | range a b =>
    intro h
    rcases List.mem_append.mp h with h | h
    · exact natToDigits_no_comma a h
    · rcases List.mem_cons.mp h with h | h
      · exact absurd h (by decide)
      · exact natToDigits_no_comma b h

theorem renderToken_ne_nil (t : PageToken) : renderToken t ≠ [] := by
  cases t with
  | single n => exact natToDigits_ne_nil n
  | range a b => simp [renderToken]

theorem renderPages_ne_nil (ts : List PageToken) (hne : ts ≠ []) :
    renderPages ts ≠ [] := by
  cases ts with
  | nil => exact absurd rfl hne
  | cons t rest =>
    cases rest with
    | nil => exact renderToken_ne_nil t
    | cons t2 rest2 =>
      show renderToken t ++ ',' :: joinWith ',' (renderToken t2 :: rest2.map renderToken) ≠ []
      simp

theorem parseParts_render (ts : List PageToken) :
    parseParts (ts.map renderToken) = .ok ((ts.map tokenExpansion).flatten) := by
  induction ts with
  | nil => rfl
  | cons t rest ih =>
    show parseParts (renderToken t :: rest.map renderToken) = _
    unfold parseParts
    rw [parsePart_renderToken, ih]
    simp

theorem parsePages_renderPages (ts : List PageToken) (hne : ts ≠ []) :
    parsePages (renderPages ts) = .ok ((ts.map tokenExpansion).flatten) := by
  unfold parsePages renderPages
  rw [pySplit_joinWith ',' (ts.map renderToken)
    (by simpa using hne)
    (fun s hs => by
      obtain ⟨t, _, rfl⟩ := List.mem_map.mp hs
      exact renderToken_no_comma t)]
  exact parseParts_render ts

theorem split_eq_of_parse {α : Type} (doc : List α) (s : PyStr) (hne : s ≠ [])
    (pl : List Int) (hp : parsePages s = .ok pl) :
    split (some doc) (some s) =
      match split_pdf doc pl with
      | .error e => HttpOutcome.serverError e
      | .ok out => HttpOutcome.download out := by
  cases s with
  | nil => exact absurd rfl hne
  | cons c cs =>
    show (match parsePages (c :: cs) with
      | .error e => HttpOutcome.serverError e
      | .ok page_list =>
        match split_pdf doc page_list with
        | .error e => HttpOutcome.serverError e
        | .ok out => HttpOutcome.download out) = _
    rw [hp]

-- ---------------------------------------------------------------------
-- C5, C9, C4, C10
-- ---------------------------------------------------------------------

/-- C5: for every pages string that is a comma-separated list of single
numbers and inclusive ranges, the split route expands it, in the order
given, into the explicit page-number sequence (each single number
contributes itself, each range `a-b` contributes `a, a+1, ..., b`
inclusive), and passes exactly that sequence to `split_pdf`. -/
theorem split_pages_expansion {α : Type} (doc : List α) (ts : List PageToken)
    (hne : ts ≠ []) :
    parsePages (renderPages ts) = .ok ((ts.map tokenExpansion).flatten) ∧
    split (some doc) (some (renderPages ts)) =
      match split_pdf doc ((ts.map tokenExpansion).flatten) with
      | .error e => HttpOutcome.serverError e
      | .ok out => HttpOutcome.download out := by
  have hp := parsePages_renderPages ts hne
  exact ⟨hp, split_eq_of_parse doc (renderPages ts) (renderPages_ne_nil ts hne) _ hp⟩

/-- Witness for C5: the spec's example `"2-4,7"` expands to `[2, 3, 4, 7]`. -/
theorem split_pages_expansion_witness :
    (([PageToken.range 2 4, PageToken.single 7] : List PageToken) ≠ []) ∧
    parsePages (renderPages [PageToken.range 2 4, PageToken.single 7])
      = .ok ([2, 3, 4, 7] : List Int) :=
  ⟨by simp, by
    rw [(split_pages_expansion ([] : List Nat)
      [PageToken.range 2 4, PageToken.single 7] (by simp)).1]
    rfl⟩

theorem pyRangeIncl_nil (a b : Nat) (h : b < a) :
    pyRangeIncl (a : Int) (b : Int) = [] := by
  unfold pyRangeIncl
  have h0 : ((b : Int) + 1 - a).toNat = 0 := by omega
  rw [h0]
  rfl

/-- C9: a range token `a-b` with `a > b` expands to no page numbers at all
(silently, not an error); a pages string consisting only of such descending
ranges therefore parses to the empty page list, and the split route then
returns a zero-page output document instead of failing. -/
theorem split_descending_ranges {α : Type} (doc : List α)
    (rs : List (Nat × Nat)) (hne : rs ≠ [])
    (hdesc : ∀ r ∈ rs, r.2 < r.1) :
    (∀ r ∈ rs, tokenExpansion (PageToken.range r.1 r.2) = []) ∧
    parsePages (renderPages (rs.map fun r => PageToken.range r.1 r.2)) = .ok [] ∧
    split (some doc) (some (renderPages (rs.map fun r => PageToken.range r.1 r.2)))
      = .download ([] : List α) := by
  have hexp : ∀ r ∈ rs, tokenExpansion (PageToken.range r.1 r.2) = [] :=
    fun r hr => pyRangeIncl_nil r.1 r.2 (hdesc r hr)
  have hmapne : (rs.map fun r => PageToken.range r.1 r.2) ≠ [] := by
    simpa using hne
  have hflat : ((rs.map fun r => PageToken.range r.1 r.2).map tokenExpansion).flatten
      = [] := by
    rw [List.flatten_eq_nil_iff]
    intro l hl
    obtain ⟨t, ht, rfl⟩ := List.mem_map.mp hl
    obtain ⟨r, hr, rfl⟩ := List.mem_map.mp ht
    exact hexp r hr
  have hp := parsePages_renderPages _ hmapne
  rw [hflat] at hp
  refine ⟨hexp, hp, ?_⟩
  rw [split_eq_of_parse doc _ (renderPages_ne_nil _ hmapne) [] hp]
  rfl

/-- Witness for C9: the pages string `"5-3,4-2"` parses to the empty page
list and yields a zero-page download. -/
theorem split_descending_ranges_witness :
    ((([(5, 3), (4, 2)] : List (Nat × Nat)) ≠ []) ∧
      ∀ r ∈ ([(5, 3), (4, 2)] : List (Nat × Nat)), r.2 < r.1) ∧
    ((∀ r ∈ ([(5, 3), (4, 2)] : List (Nat × Nat)),
        tokenExpansion (PageToken.range r.1 r.2) = []) ∧
      parsePages (renderPages (([(5, 3), (4, 2)] : List (Nat × Nat)).map
        fun r => PageToken.range r.1 r.2)) = .ok [] ∧
      split (some ([9] : List Nat)) (some (renderPages
          (([(5, 3), (4, 2)] : List (Nat × Nat)).map fun r => PageToken.range r.1 r.2)))
        = .download ([] : List Nat)) :=
  ⟨⟨by simp, by decide⟩,
    split_descending_ranges [9] [(5, 3), (4, 2)] (by simp) (by decide)⟩

/-- Counterexample for C4: a split request for page 2 of a 1-page document
does NOT produce the redirect-with-message the claim promises — the
out-of-range `IndexError` escapes the handler as a server error. -/
theorem split_route_oor_counterexample :
    split (some ([0] : List Nat)) (some ['2'])
        = HttpOutcome.serverError "Page index out of range" ∧
    (split (some ([0] : List Nat)) (some ['2'])).isRedirect = false := by
  decide

/-- C4 (amended): a split request whose parsed page list contains an
out-of-range page number is answered with an unhandled server error
(HTTP 500) — the route wraps no call in a try/except — not with the
redirect-with-message used for failed input validation. -/
theorem split_route_oor_server_error {α : Type} (doc : List α) (s : PyStr)
    (pl : List Int) (hp : parsePages s = .ok pl)
    (hbad : ∃ p ∈ pl, p < 1 ∨ (doc.length : Int) < p) :
    split (some doc) (some s) = .serverError "Page index out of range" := by
  have hne : s ≠ [] := by
    intro h
    subst h
    rw [show parsePages [] = .error "ValueError" from rfl] at hp
    exact Except.noConfusion hp
  rw [split_eq_of_parse doc s hne pl hp, split_pdf_error_of_bad doc pl hbad]

/-- Witness for the amended C4: pages string `"2"` against a 1-page
document. -/
theorem split_route_oor_server_error_witness :
    parsePages ['2'] = .ok ([2] : List Int) ∧
    (∃ p ∈ ([2] : List Int), p < 1 ∨ ((([0] : List Nat).length : Int) < p)) ∧
    split (some ([0] : List Nat)) (some ['2'])
      = .serverError "Page index out of range" :=
  ⟨by rfl, by decide,
    split_route_oor_server_error [0] ['2'] [2] (by rfl) (by decide)⟩

/-- C10: the pages parsing of the split route is not total — an empty token
between commas, a token that is not a decimal integer, and a token with
more than one hyphen (including a leading minus sign) each raise a
`ValueError` that no handler in the route catches, so the request never
reaches `split_pdf` and no redirect-with-message is issued. -/
theorem split_route_parse_errors_uncaught :
    split (some ([0] : List Nat)) (some ['1', ',', ',', '2'])
        = HttpOutcome.serverError "ValueError" ∧
    split (some ([0] : List Nat)) (some ['a', 'b', 'c'])
        = HttpOutcome.serverError "ValueError" ∧
    split (some ([0] : List Nat)) (some ['-', '3'])
        = HttpOutcome.serverError "ValueError" ∧
    split (some ([0] : List Nat)) (some ['1', '-', '2', '-', '3'])
        = HttpOutcome.serverError "ValueError" ∧
    (split (some ([0] : List Nat)) (some ['1', ',', ',', '2'])).isRedirect = false ∧
    (split (some ([0] : List Nat)) (some ['a', 'b', 'c'])).isRedirect = false ∧
    (split (some ([0] : List Nat)) (some ['-', '3'])).isRedirect = false ∧
    (split (some ([0] : List Nat)) (some ['1', '-', '2', '-', '3'])).isRedirect = false := by
  decide

-- ---------------------------------------------------------------------
-- Storage naming, office conversion, image conversion (C6, C7, C8)
-- ---------------------------------------------------------------------

/-- `str.rfind(c)`: index of the last occurrence of `c`, `-1` if absent. -/
def pyRfind (c : Char) : PyStr → Int
  | [] => -1
  | x :: xs =>
    if pyRfind c xs ≥ 0 then pyRfind c xs + 1
    else if x = c then 0 else -1

/-- `os.path.splitext(p)[1]` (ntpath): the extension starts at the last dot
provided that dot comes after the last path separator and the basename has
at least one non-dot character before it; otherwise the extension is empty.
Translated from CPython `genericpath._splitext` with separators `\` and
`/`. -/
def splitextExt (p : PyStr) : PyStr :=
  if max (pyRfind '\\' p) (pyRfind '/' p) < pyRfind '.' p then
    if ((p.take (pyRfind '.' p).toNat).drop
        (max (pyRfind '\\' p) (pyRfind '/' p) + 1).toNat).any (fun c => c != '.') then
      p.drop (pyRfind '.' p).toNat
    else []
  else []

/-- `utils.random_filename`: `uuid.uuid4().hex + ext` with
`ext = os.path.splitext(filename)[1]`; the freshly generated random hex
token is passed in as `token`. -/
def random_filename (token : PyStr) (filename : PyStr) : PyStr :=
  token ++ splitextExt filename

theorem splitextExt_suffix (p : PyStr) : splitextExt p <:+ p := by
  unfold splitextExt
  split_ifs with h1 h2
  · exact List.drop_suffix _ _
  · exact List.nil_suffix
  · exact List.nil_suffix

/-- C6: `random_filename` pairs the supplied fresh random token with the
file's extension: the result is exactly the token followed by the
extension, the extension is a character-for-character suffix of the
original filename (case preserved exactly as given), and nothing else of
the original name influences the result — any filename with the same
extension yields the same output. -/
theorem random_filename_spec (token filename : PyStr) :
    random_filename token filename = token ++ splitextExt filename ∧
    splitextExt filename <:+ filename ∧
    ∀ g : PyStr, splitextExt g = splitextExt filename →
      random_filename token g = random_filename token filename :=
  ⟨rfl, splitextExt_suffix filename,
    fun g hg => by unfold random_filename; rw [hg]⟩

/-- Witness for C6: `"doc.PdF"` keeps its mixed-case extension `.PdF`, and
a different stem with the same extension gives the identical result. -/
theorem random_filename_spec_witness :
    splitextExt ['d', 'o', 'c', '.', 'P', 'd', 'F'] = ['.', 'P', 'd', 'F'] ∧
    random_filename ['t', 'o', 'k'] ['d', 'o', 'c', '.', 'P', 'd', 'F']
      = ['t', 'o', 'k', '.', 'P', 'd', 'F'] ∧
    random_filename ['t', 'o', 'k'] ['x', '.', 'P', 'd', 'F']
      = random_filename ['t', 'o', 'k'] ['d', 'o', 'c', '.', 'P', 'd', 'F'] :=
  ⟨by decide, by decide,
    (random_filename_spec ['t', 'o', 'k'] ['d', 'o', 'c', '.', 'P', 'd', 'F']).2.2
      ['x', '.', 'P', 'd', 'F'] (by decide)⟩

/-- Result of `subprocess.run`: exit code and captured stderr. -/
structure ProcResult where
  returncode : Int
  stderr : PyStr

/-- `os.path.basename` (ntpath): everything after the last path
separator. -/
def pyBasename (p : PyStr) : PyStr :=
  p.drop (max (pyRfind '\\' p) (pyRfind '/' p) + 1).toNat

/-- `os.path.splitext(p)[0]`: everything before the extension. -/
def splitextRoot (p : PyStr) : PyStr :=
  p.take (p.length - (splitextExt p).length)

/-- `os.path.join(dir, name)` (ntpath) for a relative `name`: insert a
backslash unless `dir` is empty or already ends in a separator or a drive
colon. -/
def pyJoin (dir name : PyStr) : PyStr :=
  if dir = [] then name
  else if dir.getLast? = some '\\' ∨ dir.getLast? = some '/' ∨ dir.getLast? = some ':' then
    dir ++ name
  else dir ++ '\\' :: name

/-- `utils.convert_office_to_pdf`: runs the external LibreOffice process
(its result is the `proc` parameter), raises on a non-zero exit code with
the process's stderr in the message, then computes
`output_dir/<input-basename>.pdf`, raises "Converted PDF not found!" when
that file does not exist (the `fileExists` oracle models `os.path.exists`),
and otherwise returns that path. -/
def convert_office_to_pdf (proc : ProcResult) (fileExists : PyStr → Bool)
    (input_path output_dir : PyStr) : Except PyStr PyStr :=
  if proc.returncode ≠ 0 then
    .error (("LibreOffice conversion failed: ").toList ++ proc.stderr)
  else if fileExists (pyJoin output_dir
      (splitextRoot (pyBasename input_path) ++ ('.' :: ['p', 'd', 'f']))) = false then
    .error (("Converted PDF not found!").toList)
  else
    .ok (pyJoin output_dir (splitextRoot (pyBasename input_path) ++ ('.' :: ['p', 'd', 'f'])))

/-- C7: `convert_office_to_pdf` raises the conversion-failure error
carrying the process's error output exactly when the process exits
non-zero; on a zero exit code with the expected output file absent it
raises "output missing" ("Converted PDF not found!"); otherwise it returns
the path `<output_dir>/<input-basename>.pdf`. -/
theorem convert_office_to_pdf_spec (proc : ProcResult) (fileExists : PyStr → Bool)
    (input_path output_dir : PyStr) :
    (proc.returncode ≠ 0 →
      convert_office_to_pdf proc fileExists input_path output_dir
        = .error (("LibreOffice conversion failed: ").toList ++ proc.stderr)) ∧
    (proc.returncode = 0 →
      fileExists (pyJoin output_dir
          (splitextRoot (pyBasename input_path) ++ ('.' :: ['p', 'd', 'f']))) = false →
      convert_office_to_pdf proc fileExists input_path output_dir
        = .error (("Converted PDF not found!").toList)) ∧
    (proc.returncode = 0 →
      fileExists (pyJoin output_dir
          (splitextRoot (pyBasename input_path) ++ ('.' :: ['p', 'd', 'f']))) = true →
      convert_office_to_pdf proc fileExists input_path output_dir
        = .ok (pyJoin output_dir
            (splitextRoot (pyBasename input_path) ++ ('.' :: ['p', 'd', 'f'])))) := by
  unfold convert_office_to_pdf
  refine ⟨fun h => by rw [if_pos h], fun h hf => ?_, fun h hf => ?_⟩
  · rw [if_neg (fun hn => hn h), if_pos hf]
  · rw [if_neg (fun hn => hn h), if_neg (by simp [hf])]

/-- Witness for C7: a process exiting with code 1 and stderr `"bad"` makes
the conversion fail with that error output in the message. -/
theorem convert_office_to_pdf_spec_witness :
    ((1 : Int) ≠ 0) ∧
    convert_office_to_pdf ⟨1, ['b', 'a', 'd']⟩ (fun _ => true)
        ['i', 'n', '.', 'd', 'o', 'c', 'x'] ['o', 'u', 't']
      = .error (("LibreOffice conversion failed: ").toList ++ ['b', 'a', 'd']) :=
  ⟨by decide,
    (convert_office_to_pdf_spec ⟨1, ['b', 'a', 'd']⟩ (fun _ => true)
      ['i', 'n', '.', 'd', 'o', 'c', 'x'] ['o', 'u', 't']).1 (by decide)⟩

/-- A PIL image: its pixel-format mode string and abstract pixel
content. -/
structure PILImage where
  mode : PyStr
  content : Nat
deriving DecidableEq

/-- `Image.convert(mode)`: same content, new mode. -/
def pilConvert (img : PILImage) (m : PyStr) : PILImage := ⟨m, img.content⟩

/-- `utils.image_to_pdf`: converts the loaded image to RGB when its mode is
`"RGBA"` or `"P"` and saves it as a single-page PDF; the result is the page
list of the written file. -/
def image_to_pdf (img : PILImage) : List PILImage :=
  if img.mode = ("RGBA").toList ∨ img.mode = ("P").toList then
    [pilConvert img (("RGB").toList)]
  else [img]

/-- Modelled from the spec: the PIL pixel modes "whose pixel format
includes an alpha channel or a palette" — the alpha-bearing modes RGBA, LA,
PA, RGBa, La and the palette modes P and PA. -/
def spec_hasAlphaOrPalette (mode : PyStr) : Bool :=
  mode == ("RGBA").toList || mode == ("LA").toList || mode == ("PA").toList ||
  mode == ("RGBa").toList || mode == ("La").toList || mode == ("P").toList

/-- Counterexample for C8: a grayscale-plus-alpha image (PIL mode `LA`) has
an alpha channel in its pixel format, yet `image_to_pdf` encodes it
unchanged — it is not converted to plain RGB as the claim states. -/
theorem image_to_pdf_LA_counterexample :
    spec_hasAlphaOrPalette (("LA").toList) = true ∧
    image_to_pdf ⟨("LA").toList, 0⟩ = [⟨("LA").toList, 0⟩] ∧
    ("LA").toList ≠ ("RGB").toList := by
  decide

/-- C8 (amended): exactly the modes `RGBA` and `P` are converted to plain
RGB before encoding; every image becomes a single-page PDF, and an image of
any other mode — including other alpha-bearing modes such as `LA` — is
encoded unchanged. -/
theorem image_to_pdf_modes (img : PILImage) :
    (img.mode = ("RGBA").toList ∨ img.mode = ("P").toList →
      image_to_pdf img = [pilConvert img (("RGB").toList)]) ∧
    (¬(img.mode = ("RGBA").toList ∨ img.mode = ("P").toList) →
      image_to_pdf img = [img]) ∧
    (image_to_pdf img).length = 1 := by
  unfold image_to_pdf
  refine ⟨fun h => by rw [if_pos h], fun h => by rw [if_neg h], ?_⟩
  by_cases h : img.mode = ("RGBA").toList ∨ img.mode = ("P").toList
  · rw [if_pos h]; rfl
  · rw [if_neg h]; rfl

/-- Witness for the amended C8: an RGBA image is converted to RGB. -/
theorem image_to_pdf_modes_witness :
    ((⟨("RGBA").toList, 5⟩ : PILImage).mode = ("RGBA").toList ∨
      (⟨("RGBA").toList, 5⟩ : PILImage).mode = ("P").toList) ∧
    image_to_pdf ⟨("RGBA").toList, 5⟩
      = [pilConvert ⟨("RGBA").toList, 5⟩ (("RGB").toList)] :=
  ⟨by decide, (image_to_pdf_modes ⟨("RGBA").toList, 5⟩).1 (by decide)⟩
